import Mathlib

/-!
# Verification of the `pptrans` slide-translation pipeline

Shallow embedding of the core of the `pptrans` repository
(`src/pptrans/cache.py`, `src/pptrans/page_range.py`, `src/pptrans/__main__.py`)
together with proofs of the specified properties.

Python strings are modelled as `List Char` (sequences of Unicode scalar
values); Python `dict`s as insertion-ordered association lists; fallible
functions return `Except`; file-system effects are modelled by an explicit
outcome parameter.
-/

set_option autoImplicit false

namespace Pptrans

/-- A Python string: a sequence of Unicode code points. -/
abbrev Str := List Char

/-- Convenience conversion from a Lean string literal to `Str`. -/
def str (s : String) : Str := s.data

/-- The characters Python's `str.strip()` removes (ASCII whitespace;
Python also strips the rarer Unicode space code points, which never occur
in the texts handled here). -/
def pyIsSpace (c : Char) : Bool :=
  c = ' ' || c = '\t' || c = '\n' || c = '\x0d' || c = '\x0b' || c = '\x0c'

/-- Python `s.strip()`: remove leading and trailing whitespace. -/
def pyStrip (s : Str) : Str :=
  ((s.dropWhile pyIsSpace).reverse.dropWhile pyIsSpace).reverse

/-- Python `s.split(sep, 1)` for a one-character separator: split on the
first occurrence, returning `none` when the separator does not occur. -/
def splitFirst? (sep : Char) : Str → Option (Str × Str)
  | [] => none
  | c :: cs =>
    if c = sep then some ([], cs)
    else match splitFirst? sep cs with
      | some (a, b) => some (c :: a, b)
      | none => none

/-- Python `s.split(sep)` for a one-character separator (no collapsing of
adjacent separators; the empty string yields `[""]`). -/
def splitAll (sep : Char) : Str → List Str
  | [] => [[]]
  | c :: cs =>
    if c = sep then [] :: splitAll sep cs
    else match splitAll sep cs with
      | r :: rs => (c :: r) :: rs
      | [] => [[c]]

/-- Python `sep.join(parts)` for a one-character separator. -/
def joinWith (sep : Char) : List Str → Str
  | [] => []
  | [t] => t
  | t :: ts => t ++ sep :: joinWith sep ts

/-- Python `s.removesuffix(suffix)`: drop the suffix if it is non-empty and
`s` ends with it, otherwise return `s` unchanged. -/
def removesuffix (s suffix : Str) : Str :=
  if suffix ≠ [] ∧ suffix <:+ s then s.take (s.length - suffix.length) else s

/-- The constant `EOL_MARKER = "<"` from `__main__.py`. -/
def EOL_MARKER : Str := ['<']

/-- The function `reverse_individual_words` from `__main__.py`: reverse the characters of
each space-separated word, preserving a trailing `EOL_MARKER` if present. -/
def reverse_individual_words (text_string_with_eol : Str) : Str :=
  let had_eol := EOL_MARKER <:+ text_string_with_eol
  let text_to_reverse :=
    if had_eol then text_string_with_eol.dropLast else text_string_with_eol
  let words := splitAll ' ' text_to_reverse
  let reversed_words := words.map List.reverse
  let result := joinWith ' ' reversed_words
  if had_eol then result ++ EOL_MARKER else result

/-- The word-wise reversal of a string: split on single spaces, reverse each
word's characters, re-join with single spaces. -/
def wordRev (s : Str) : Str :=
  joinWith ' ' ((splitAll ' ' s).map List.reverse)

/-- The net effect of `reverse-words` mode on one run's text
(`__main__.py`: append `EOL_MARKER`, call `reverse_individual_words`,
remove one trailing `EOL_MARKER`, write back). -/
def mainReverseRunText (original_text : Str) : Str :=
  removesuffix (reverse_individual_words (original_text ++ EOL_MARKER)) EOL_MARKER

/-! ## Hashing (`cache.py`: `generate_page_hash`)

`generate_page_hash` joins the page's texts with `"|"` and returns the
SHA-256 hex digest of the UTF-8 encoding of the joined string. SHA-256 is
implemented here in full over `Nat` with explicit `% 2^32` reductions. -/

/-- UTF-8 encoding of one Unicode scalar value, as a list of byte values. -/
def utf8EncodeChar (c : Char) : List Nat :=
  let n := c.toNat
  if n < 0x80 then [n]
  else if n < 0x800 then
    [0xC0 ||| (n >>> 6), 0x80 ||| (n &&& 0x3F)]
  else if n < 0x10000 then
    [0xE0 ||| (n >>> 12), 0x80 ||| ((n >>> 6) &&& 0x3F), 0x80 ||| (n &&& 0x3F)]
  else
    [0xF0 ||| (n >>> 18), 0x80 ||| ((n >>> 12) &&& 0x3F),
     0x80 ||| ((n >>> 6) &&& 0x3F), 0x80 ||| (n &&& 0x3F)]

/-- UTF-8 encoding of a string (Python `s.encode("utf-8")`). -/
def utf8Encode (s : Str) : List Nat := s.flatMap utf8EncodeChar

/-- The word modulus `2^32` of SHA-256. -/
def m32 : Nat := 4294967296

/-- Right rotation of a 32-bit word by `d` places. -/
def rotr32 (d x : Nat) : Nat := (x >>> d) + (x % 2 ^ d) * 2 ^ (32 - d)

/-- Bitwise complement of a 32-bit word. -/
def not32 (x : Nat) : Nat := 0xFFFFFFFF ^^^ x

/-- The SHA-256 round constants. -/
def sha256K : List Nat :=
  [1116352408, 1899447441, 3049323471,
   3921009573, 961987163, 1508970993,
   2453635748, 2870763221, 3624381080,
   310598401, 607225278, 1426881987,
   1925078388, 2162078206, 2614888103,
   3248222580, 3835390401, 4022224774,
   264347078, 604807628, 770255983,
   1249150122, 1555081692, 1996064986,
   2554220882, 2821834349, 2952996808,
   3210313671, 3336571891, 3584528711,
   113926993, 338241895, 666307205,
   773529912, 1294757372, 1396182291,
   1695183700, 1986661051, 2177026350,
   2456956037, 2730485921, 2820302411,
   3259730800, 3345764771, 3516065817,
   3600352804, 4094571909, 275423344,
   430227734, 506948616, 659060556,
   883997877, 958139571, 1322822218,
   1537002063, 1747873779, 1955562222,
   2024104815, 2227730452, 2361852424,
   2428436474, 2756734187, 3204031479,
   3329325298]

/-- The eight working variables of the SHA-256 compression function. -/
structure Sha256State where
  a : Nat
  b : Nat
  c : Nat
  d : Nat
  e : Nat
  f : Nat
  g : Nat
  hh : Nat
deriving Repr, DecidableEq

/-- The SHA-256 initial hash value. -/
def sha256Init : Sha256State :=
  ⟨1779033703,
   3144134277,
   1013904242,
   2773480762,
   1359893119,
   2600822924,
   528734635,
   1541459225⟩

/-- One round of the SHA-256 compression function. -/
def sha256Round (st : Sha256State) (kw : Nat × Nat) : Sha256State :=
  let s1 := rotr32 6 st.e ^^^ rotr32 11 st.e ^^^ rotr32 25 st.e
  let ch := (st.e &&& st.f) ^^^ (not32 st.e &&& st.g)
  let temp1 := (st.hh + s1 + ch + kw.1 + kw.2) % m32
  let s0 := rotr32 2 st.a ^^^ rotr32 13 st.a ^^^ rotr32 22 st.a
  let maj := (st.a &&& st.b) ^^^ (st.a &&& st.c) ^^^ (st.b &&& st.c)
  let temp2 := (s0 + maj) % m32
  ⟨(temp1 + temp2) % m32, st.a, st.b, st.c,
   (st.d + temp1) % m32, st.e, st.f, st.g⟩

/-- The next word of the SHA-256 message schedule, from the words so far. -/
def sha256NextW (w : List Nat) : Nat :=
  let n := w.length
  let w15 := w.getD (n - 15) 0
  let w2 := w.getD (n - 2) 0
  let w16 := w.getD (n - 16) 0
  let w7 := w.getD (n - 7) 0
  let s0 := rotr32 7 w15 ^^^ rotr32 18 w15 ^^^ (w15 >>> 3)
  let s1 := rotr32 17 w2 ^^^ rotr32 19 w2 ^^^ (w2 >>> 10)
  (w16 + s0 + w7 + s1) % m32

/-- Extend the message schedule by `k` further words. -/
def sha256Extend (w : List Nat) : Nat → List Nat
  | 0 => w
  | k + 1 => sha256Extend (w ++ [sha256NextW w]) k

/-- Process one 16-word chunk of the padded message. -/
def sha256Compress (st : Sha256State) (chunk : List Nat) : Sha256State :=
  let w := sha256Extend chunk 48
  let r := (sha256K.zip w).foldl sha256Round st
  ⟨(st.a + r.a) % m32, (st.b + r.b) % m32, (st.c + r.c) % m32,
   (st.d + r.d) % m32, (st.e + r.e) % m32, (st.f + r.f) % m32,
   (st.g + r.g) % m32, (st.hh + r.hh) % m32⟩

/-- Process all 16-word chunks of the padded message in order. -/
def sha256Chunks (st : Sha256State) : List Nat → Sha256State
  | [] => st
  | w :: ws => sha256Chunks (sha256Compress st ((w :: ws).take 16)) ((w :: ws).drop 16)
termination_by ws => ws.length
decreasing_by simp [List.length_drop]; omega

/-- Big-endian bytes of a value, `k` bytes wide. -/
def beBytes : Nat → Nat → List Nat
  | 0, _ => []
  | k + 1, x => (x >>> (8 * k)) % 256 :: beBytes k x

/-- SHA-256 message padding: `0x80`, zeros to 56 mod 64, then the 64-bit
big-endian bit length. -/
def sha256Pad (msg : List Nat) : List Nat :=
  let len := msg.length
  let zeros := (120 - (len + 1) % 64) % 64
  msg ++ [0x80] ++ List.replicate zeros 0 ++ beBytes 8 (len * 8)

/-- Group a byte list into big-endian 32-bit words. -/
def bytesToWords : List Nat → List Nat
  | b0 :: b1 :: b2 :: b3 :: rest =>
    (((b0 * 256 + b1) * 256 + b2) * 256 + b3) :: bytesToWords rest
  | _ => []

/-- Lowercase hex digit for a value below 16. -/
def hexChar (n : Nat) : Char :=
  if n < 10 then Char.ofNat (48 + n) else Char.ofNat (87 + n)

/-- Two lowercase hex digits of a byte. -/
def byteHex (b : Nat) : List Char := [hexChar (b / 16), hexChar (b % 16)]

/-- The SHA-256 digest of a byte list, as a lowercase hex string. -/
def sha256Hex (msg : List Nat) : Str :=
  let st := sha256Chunks sha256Init (bytesToWords (sha256Pad msg))
  ([st.a, st.b, st.c, st.d, st.e, st.f, st.g, st.hh].flatMap (beBytes 4)).flatMap
    byteHex

/-- Python `"|".join(texts_on_page)` from `generate_page_hash`. -/
def joinPipe (texts : List Str) : Str := joinWith '|' texts

/-- The function `generate_page_hash` from `cache.py`: SHA-256 hex digest of the UTF-8
bytes of the texts joined with the `"|"` delimiter. -/
def generate_page_hash (texts_on_page : List Str) : Str :=
  sha256Hex (utf8Encode (joinPipe texts_on_page))

/-! ## Decimal rendering and identifier schemes

Python's f-string `f"pg{page}_txt{counter}"` (in `cache.py`) and
`f"text_{counter}"` (in `__main__.py`) render non-negative integers in
decimal. -/

/-- Decimal digits of `n`, most significant first (structural fuel; the
fuel `n + 1` always suffices since `n / 10 < n` for `n ≥ 10`). -/
def toDecimalAux : Nat → Nat → List Char
  | 0, _ => []
  | fuel + 1, n =>
    if n < 10 then [Char.ofNat (48 + n)]
    else toDecimalAux fuel (n / 10) ++ [Char.ofNat (48 + n % 10)]

/-- Python `str(n)` for a natural number. -/
def natDecimal (n : Nat) : Str := toDecimalAux (n + 1) n

/-- The id format `pg<page_number_1_indexed>_txt<text_id_counter>` built by
`cache.prepare_slide_for_translation`. -/
def mkId (page ctr : Nat) : Str :=
  str "pg" ++ natDecimal page ++ str "_txt" ++ natDecimal ctr

/-- The id format `text_<text_id_counter>` built by the inline planner of `main`. -/
def mkIdMain (ctr : Nat) : Str := str "text_" ++ natDecimal ctr

/-! ## Data model -/

/-- One cache list entry: an original text paired with its translation. -/
structure CacheItem where
  original_text : Str
  translation : Str
deriving DecidableEq, Repr

/-- One extracted run: its original text plus its run handle. The run
handle is opaque; it is modelled by a natural number. -/
structure RunInfo where
  original_text : Str
  run_object : Nat
deriving DecidableEq, Repr

/-- One entry of `all_processed_run_details` /
`processed_runs_for_slide`. -/
structure ProcessedRun where
  run_object : Nat
  final_translation : Option Str
  from_cache : Bool
  original_text : Str
  llm_id : Option Str
deriving DecidableEq, Repr

/-- One entry of `texts_for_llm` / `global_texts_for_llm_prompt`. -/
structure LlmQueueItem where
  id : Str
  original_text_for_cache : Str
  text_to_send : Str
  run_object : Nat
  page_hash : Str
deriving DecidableEq, Repr

/-- A Python `dict` with string keys: an insertion-ordered association
list; lookup finds the first matching key, assignment replaces the first
matching entry in place or appends a new one. -/
abbrev Dict (β : Type) := List (Str × β)

/-- Python `d[k]` / `d.get(k)`. -/
def dictLookup {β : Type} : Dict β → Str → Option β
  | [], _ => none
  | p :: ps, k => if p.1 = k then some p.2 else dictLookup ps k

/-- Python `k in d`. -/
def dictContains {β : Type} (d : Dict β) (k : Str) : Bool :=
  (dictLookup d k).isSome

/-- Python `d[k] = v`. -/
def dictInsert {β : Type} : Dict β → Str → β → Dict β
  | [], k, v => [(k, v)]
  | p :: ps, k, v => if p.1 = k then (k, v) :: ps else p :: dictInsert ps k v

/-- The translation cache: page fingerprint → list of cached pairs. -/
abbrev TranslationCache := Dict (List CacheItem)

/-! ## Slide planning (`cache.py`: `prepare_slide_for_translation`) -/

/-- The tuple returned by `prepare_slide_for_translation`. -/
structure PrepResult where
  texts_for_llm : List LlmQueueItem
  processed_runs_for_slide : List ProcessedRun
  text_id_counter : Nat
  page_requires_llm_processing : Bool
deriving DecidableEq, Repr

/-- The page-cache-hit loop of `prepare_slide_for_translation`: each run is
served from the page's cached list when its exact text appears there,
otherwise queued for the LLM under a fresh `pg<page>_txt<counter>` id. -/
def prepHitRuns (page_hash : Str) (cached : List CacheItem) (eol_marker : Str)
    (page : Nat) : List RunInfo → Nat → PrepResult
  | [], ctr => ⟨[], [], ctr, false⟩
  | r :: rs, ctr =>
    match cached.find? (fun item => item.original_text == r.original_text) with
    | some item =>
      let rest := prepHitRuns page_hash cached eol_marker page rs ctr
      ⟨rest.texts_for_llm,
       ⟨r.run_object, some item.translation, true, r.original_text, none⟩ ::
         rest.processed_runs_for_slide,
       rest.text_id_counter, rest.page_requires_llm_processing⟩
    | none =>
      let text_id := mkId page ctr
      let rest := prepHitRuns page_hash cached eol_marker page rs (ctr + 1)
      ⟨⟨text_id, r.original_text, r.original_text ++ eol_marker, r.run_object,
         page_hash⟩ :: rest.texts_for_llm,
       ⟨r.run_object, none, false, r.original_text, some text_id⟩ ::
         rest.processed_runs_for_slide,
       rest.text_id_counter, true⟩

/-- The page-cache-miss loop of `prepare_slide_for_translation`: every run
is queued for the LLM. -/
def prepMissRuns (page_hash : Str) (eol_marker : Str) (page : Nat) :
    List RunInfo → Nat → List LlmQueueItem × List ProcessedRun × Nat
  | [], ctr => ([], [], ctr)
  | r :: rs, ctr =>
    let text_id := mkId page ctr
    let (ts, ps, ctr') := prepMissRuns page_hash eol_marker page rs (ctr + 1)
    (⟨text_id, r.original_text, r.original_text ++ eol_marker, r.run_object,
       page_hash⟩ :: ts,
     ⟨r.run_object, none, false, r.original_text, some text_id⟩ :: ps,
     ctr')

/-- The function `prepare_slide_for_translation` from `cache.py`. -/
def prepare_slide_for_translation (slide_run_info : List RunInfo)
    (page_hash : Str) (translation_cache : TranslationCache)
    (text_id_counter : Nat) (eol_marker : Str)
    (page_number_1_indexed : Nat) : PrepResult :=
  match dictLookup translation_cache page_hash with
  | some cached_translations_for_page =>
    prepHitRuns page_hash cached_translations_for_page eol_marker
      page_number_1_indexed slide_run_info text_id_counter
  | none =>
    let (ts, ps, ctr) := prepMissRuns page_hash eol_marker
      page_number_1_indexed slide_run_info text_id_counter
    ⟨ts, ps, ctr, !slide_run_info.isEmpty⟩

/-! ## The inline planner of `__main__.main` (translate mode)

`main` does not call `cache.prepare_slide_for_translation`; it repeats the
same per-run logic inline (lines 198–283), with two differences: LLM ids
have the form `text_<counter>`, and it also pre-initialises the
`pending_page_cache_updates` bucket of a page that needs LLM work. -/

/-- The result of `main`'s inline per-slide planning. -/
structure MainPlanResult where
  global_texts_for_llm_prompt : List LlmQueueItem
  all_processed_run_details : List ProcessedRun
  text_id_counter : Nat
  pending_page_cache_updates : TranslationCache
deriving DecidableEq, Repr

/-- The page-cache-hit loop of `main` (`__main__.py` lines 202–253). -/
def mainPlanHit (page_hash : Str) (cached : List CacheItem) :
    List RunInfo → Nat → TranslationCache → MainPlanResult
  | [], ctr, pending => ⟨[], [], ctr, pending⟩
  | r :: rs, ctr, pending =>
    match cached.find? (fun item => item.original_text == r.original_text) with
    | some item =>
      let rest := mainPlanHit page_hash cached rs ctr pending
      ⟨rest.global_texts_for_llm_prompt,
       ⟨r.run_object, some item.translation, true, r.original_text, none⟩ ::
         rest.all_processed_run_details,
       rest.text_id_counter, rest.pending_page_cache_updates⟩
    | none =>
      let text_id := mkIdMain ctr
      let pending' :=
        if dictContains pending page_hash then pending
        else dictInsert pending page_hash []
      let rest := mainPlanHit page_hash cached rs (ctr + 1) pending'
      ⟨⟨text_id, r.original_text, r.original_text ++ EOL_MARKER, r.run_object,
         page_hash⟩ :: rest.global_texts_for_llm_prompt,
       ⟨r.run_object, none, false, r.original_text, some text_id⟩ ::
         rest.all_processed_run_details,
       rest.text_id_counter, rest.pending_page_cache_updates⟩

/-- The page-cache-miss loop of `main` (`__main__.py` lines 255–283). -/
def mainPlanMiss (page_hash : Str) :
    List RunInfo → Nat → List LlmQueueItem × List ProcessedRun × Nat
  | [], ctr => ([], [], ctr)
  | r :: rs, ctr =>
    let text_id := mkIdMain ctr
    let (ts, ps, ctr') := mainPlanMiss page_hash rs (ctr + 1)
    (⟨text_id, r.original_text, r.original_text ++ EOL_MARKER, r.run_object,
       page_hash⟩ :: ts,
     ⟨r.run_object, none, false, r.original_text, some text_id⟩ :: ps,
     ctr')

/-- The inline planning of `main` for one slide (`__main__.py` lines 198–283). -/
def mainPlanSlide (current_page_run_info : List RunInfo) (page_hash : Str)
    (translation_cache : TranslationCache) (text_id_counter : Nat)
    (pending : TranslationCache) : MainPlanResult :=
  match dictLookup translation_cache page_hash with
  | some cached_translations_for_page =>
    mainPlanHit page_hash cached_translations_for_page current_page_run_info
      text_id_counter pending
  | none =>
    let pending' := dictInsert pending page_hash []
    let (ts, ps, ctr) := mainPlanMiss page_hash current_page_run_info
      text_id_counter
    ⟨ts, ps, ctr, pending'⟩

/-! ## Response reconciliation (`cache.py`: `update_data_from_llm_response`) -/

/-- Per-line parsing of an LLM response line (`cache.py` lines 192–202):
strip the line, skip it when blank, split on the first colon into
`(parsed_text_id, llm_translation_with_eol)` where the id part is stripped
again and the rest is kept verbatim; `none` when the line is blank or has
no colon. -/
def parseResponseLine (orig_line : Str) : Option (Str × Str) :=
  let line := pyStrip orig_line
  if line = [] then none
  else
    match splitFirst? ':' line with
    | some (p0, p1) => some (pyStrip p0, p1)
    | none => none

/-- Update the first pending cache item with the given original text, or
append a new one (`cache.py` lines 243–260). -/
def updateFirstItem (orig transl : Str) : List CacheItem → List CacheItem
  | [] => [⟨orig, transl⟩]
  | it :: its =>
    if it.original_text = orig then ⟨it.original_text, transl⟩ :: its
    else it :: updateFirstItem orig transl its

/-- Stage one reconciled translation into `pending_page_cache_updates`
(`cache.py` lines 231–260): initialise the page's bucket when absent, then
update the first entry with the same original text or append. -/
def pendingAddTranslation (pending : TranslationCache) (page_hash : Str)
    (orig transl : Str) : TranslationCache :=
  let pending1 :=
    if dictContains pending page_hash then pending
    else dictInsert pending page_hash []
  let lst := (dictLookup pending1 page_hash).getD []
  dictInsert pending1 page_hash (updateFirstItem orig transl lst)

/-- Set `final_translation` on the first run record whose `llm_id` equals
the parsed id, leaving all others untouched (`cache.py` lines 224–229). -/
def updateFirstDetail (tid : Str) (transl : Str) :
    List ProcessedRun → List ProcessedRun
  | [] => []
  | d :: ds =>
    if d.llm_id = some tid then { d with final_translation := some transl } :: ds
    else d :: updateFirstDetail tid transl ds

/-- One response line's effect in `update_data_from_llm_response`. -/
def updateLineStep (global_texts : List LlmQueueItem) (eol_marker : Str)
    (acc : List ProcessedRun × TranslationCache) (orig_line : Str) :
    List ProcessedRun × TranslationCache :=
  match parseResponseLine orig_line with
  | none => acc
  | some (parsed_text_id, llm_translation_with_eol) =>
    match global_texts.find? (fun item => item.id == parsed_text_id) with
    | none => acc
    | some prompt_item_data =>
      let final_llm_translation :=
        removesuffix llm_translation_with_eol eol_marker
      (updateFirstDetail parsed_text_id final_llm_translation acc.1,
       pendingAddTranslation acc.2 prompt_item_data.page_hash
         prompt_item_data.original_text_for_cache final_llm_translation)

/-- The function `update_data_from_llm_response` from `cache.py`, as a pure function
from (response lines, queued items, run records, pending updates) to the
new (run records, pending updates). The loaded `translation_cache` is not
an input: the source function neither receives nor touches it. -/
def update_data_from_llm_response (llm_response_lines : List Str)
    (global_texts_for_llm_prompt_ref : List LlmQueueItem)
    (all_processed_run_details_ref : List ProcessedRun)
    (pending_page_cache_updates_ref : TranslationCache) (eol_marker : Str) :
    List ProcessedRun × TranslationCache :=
  llm_response_lines.foldl (updateLineStep global_texts_for_llm_prompt_ref eol_marker)
    (all_processed_run_details_ref, pending_page_cache_updates_ref)

/-- The ids that actually reconcile: ids parsed from some response line
that match a queued item. Only records carrying one of these ids can be
touched by `update_data_from_llm_response`. -/
def matchedIds (llm_response_lines : List Str)
    (global_texts : List LlmQueueItem) : List Str :=
  llm_response_lines.filterMap (fun l =>
    match parseResponseLine l with
    | some (tid, _) =>
      if (global_texts.find? (fun item => item.id == tid)).isSome then some tid
      else none
    | none => none)

/-! ## Cache commit (`cache.py`: `commit_pending_cache_updates`) -/

/-- The in-memory merge performed by `commit_pending_cache_updates`
(`cache.py` lines 296–312); the subsequent `save_cache` call is the
persistence step modelled separately below. -/
def commit_pending_cache_updates (translation_cache_ref : TranslationCache)
    (pending_page_cache_updates : TranslationCache) : TranslationCache :=
  pending_page_cache_updates.foldl
    (fun cache p =>
      if p.2 ≠ [] then dictInsert cache p.1 p.2
      else if dictContains cache p.1 then dictInsert cache p.1 []
      else cache)
    translation_cache_ref

/-! ## Cache file I/O (`cache.py`: `load_cache`, `save_cache`)

File-system effects are modelled by an explicit outcome value describing
what the disk did: the file may be missing, opening/reading it may raise
`OSError`, its bytes may not be valid UTF-8 (then `json.load(f)`'s
internal `f.read()` raises `UnicodeDecodeError`), its text may fail JSON
parsing (`json.JSONDecodeError`), or parsing may yield a cache map. The
source's `except (OSError, json.JSONDecodeError)` clause catches only the
second and fourth of these, so the `UnicodeDecodeError` case — a
`ValueError` subclass, not a `JSONDecodeError` — propagates out of
`load_cache`; it is modelled as the `Except.error` result. -/

/-- What happens when `load_cache` touches the file system. -/
inductive CacheLoadOutcome where
  | fileMissing : CacheLoadOutcome
  | osError : CacheLoadOutcome
  | unicodeDecodeError : CacheLoadOutcome
  | jsonDecodeError : CacheLoadOutcome
  | parsed : TranslationCache → CacheLoadOutcome
deriving DecidableEq, Repr

/-- An exception that escapes `load_cache` uncaught. -/
inductive PyUncaughtError where
  | unicodeDecodeError : PyUncaughtError
deriving DecidableEq, Repr

/-- The function `load_cache` from `cache.py`, as a function of the disk
outcome. The missing-file path and the two caught-exception paths
(`OSError`, `json.JSONDecodeError`) fall back to the empty cache after a
logged warning, and a parsed file is returned as is; but a cache file
whose bytes are not valid UTF-8 raises `UnicodeDecodeError` inside
`json.load`, which the `except (OSError, json.JSONDecodeError)` clause
does not catch, so on that outcome `load_cache` throws. -/
def load_cache : CacheLoadOutcome → Except PyUncaughtError TranslationCache
  | .fileMissing => .ok []
  | .osError => .ok []
  | .unicodeDecodeError => .error .unicodeDecodeError
  | .jsonDecodeError => .ok []
  | .parsed d => .ok d

/-- What happens when `save_cache` writes the file. -/
inductive CacheSaveOutcome where
  | ok : CacheSaveOutcome
  | osError : CacheSaveOutcome
deriving DecidableEq, Repr

/-- The function `save_cache` from `cache.py`: a total function reporting whether the
cache was persisted; the `OSError` path only logs a warning. -/
def save_cache (_cache_data : TranslationCache) :
    CacheSaveOutcome → Bool
  | .ok => true
  | .osError => false

/-! ## Writing translations back (`__main__.py` lines 453–465, 467–537) -/

/-- The run-writer loop of `main`: every record with a non-null
`final_translation` (empty string included) has that text written to its
run handle; records with a null translation are left untouched. -/
def applyTranslations (all_processed_run_details : List ProcessedRun) :
    List (Nat × Str) :=
  all_processed_run_details.filterMap
    (fun item => item.final_translation.map (fun t => (item.run_object, t)))

/-- The tail of `main`'s translate mode: apply translations to the runs,
merge the pending updates into the cache, then attempt to persist it. -/
def mainFinishTranslate (all_processed_run_details : List ProcessedRun)
    (translation_cache pending : TranslationCache)
    (outcome : CacheSaveOutcome) : List (Nat × Str) × TranslationCache × Bool :=
  let written := applyTranslations all_processed_run_details
  let cache' := commit_pending_cache_updates translation_cache pending
  (written, cache', save_cache cache' outcome)

/-! ## Page-range parsing (`page_range.py`: `parse_page_range`) -/

/-- The distinct `click.BadParameter` errors raised by
`parse_page_range`, with their interpolated data. -/
inductive PRError where
  | rangeForEmptyDeck (range_str : Str) : PRError
  | emptyRangeStr : PRError
  | nonPositiveStart (start_str part : Str) : PRError
  | invalidStart (start_str part : Str) : PRError
  | nonPositiveEnd (end_str part : Str) : PRError
  | invalidEnd (end_str part : Str) : PRError
  | invertedRange (s e : Nat) (part : Str) : PRError
  | singleOutOfRange (n : Nat) (part : Str) : PRError
  | invalidSingle (part : Str) : PRError
deriving DecidableEq, Repr

/-- Python `int(s)` on an already-stripped string, for the non-negative
values `parse_page_range` can feed it: an optional `+` sign followed by
one or more ASCII digits. (Python's `int` additionally accepts `-`, digit
 -group underscores and Unicode digits; a `-` never reaches `int` here
because parts containing `-` are split on it first, and the other forms do
not occur in the inputs considered.) -/
def pyInt? (s : Str) : Option Nat :=
  let digits := if s.head? = some '+' then s.tail else s
  if digits ≠ [] ∧ digits.all (fun c => c.isDigit) then
    some (digits.foldl (fun a c => 10 * a + (c.toNat - 48)) 0)
  else none

/-- Parsing of the start bound of a `-`-containing part
(`page_range.py` lines 46–56): an explicit start is validated as a
positive integer; an absent start defaults to page 1. -/
def parseStartBound (start_str part_specifier : Str) : Except PRError Nat :=
  if start_str ≠ [] then
    match pyInt? start_str with
    | some n =>
      if n < 1 then .error (.nonPositiveStart start_str part_specifier)
      else .ok n
    | none => .error (.invalidStart start_str part_specifier)
  else .ok 1

/-- Parsing of the end bound of a `-`-containing part
(`page_range.py` lines 58–68): an explicit end is validated as a positive
integer; an absent end defaults to the total slide count. -/
def parseEndBound (end_str part_specifier : Str) (total_slides : Nat) :
    Except PRError Nat :=
  if end_str ≠ [] then
    match pyInt? end_str with
    | some n =>
      if n < 1 then .error (.nonPositiveEnd end_str part_specifier)
      else .ok n
    | none => .error (.invalidEnd end_str part_specifier)
  else .ok total_slides

/-- Processing of one comma-separated part of the range expression
(`page_range.py` lines 33–110), accumulating into the selected-page set.
Parts whose start lies beyond the deck, and end pages capped at the deck
size, only warn; the warnings are log output, not part of the value. -/
def processPart (total_slides : Nat) (selected : Finset Nat)
    (part_specifier : Str) : Except PRError (Finset Nat) :=
  let part := pyStrip part_specifier
  if part = [] then .ok selected
  else if part.contains '-' then
    let se := (splitFirst? '-' part).getD ([], [])
    let start_str := pyStrip se.1
    let end_str := pyStrip se.2
    match parseStartBound start_str part_specifier with
    | .error err => .error err
    | .ok start_page_1_indexed =>
      match parseEndBound end_str part_specifier total_slides with
      | .error err => .error err
      | .ok end_page_1_indexed =>
        if start_page_1_indexed > end_page_1_indexed then
          .error (.invertedRange start_page_1_indexed end_page_1_indexed
            part_specifier)
        else if start_page_1_indexed > total_slides then .ok selected
        else
          .ok (selected ∪
            (Finset.Icc start_page_1_indexed
              (min end_page_1_indexed total_slides)).image (· - 1))
  else
    match pyInt? part with
    | some page_num_1_indexed =>
      if 1 ≤ page_num_1_indexed ∧ page_num_1_indexed ≤ total_slides then
        .ok (insert (page_num_1_indexed - 1) selected)
      else .error (.singleOutOfRange page_num_1_indexed part_specifier)
    | none => .error (.invalidSingle part_specifier)

instance {ε α : Type} [DecidableEq ε] [DecidableEq α] :
    DecidableEq (Except ε α) := fun x y =>
  match x, y with
  | .ok a, .ok b =>
    if h : a = b then .isTrue (by rw [h]) else .isFalse (by simp [h])
  | .error e, .error f =>
    if h : e = f then .isTrue (by rw [h]) else .isFalse (by simp [h])
  | .ok _, .error _ => .isFalse (by simp)
  | .error _, .ok _ => .isFalse (by simp)

/-- The function `parse_page_range` from `page_range.py`. (The `None` argument case is
excluded by the caller and not modelled: `main` only calls the parser when
`--pages` was given.) -/
def parse_page_range (range_str : Str) (total_slides : Nat) :
    Except PRError (Finset Nat) :=
  if total_slides = 0 then
    if range_str ≠ [] then .error (.rangeForEmptyDeck range_str)
    else .ok ∅
  else if pyStrip range_str = [] then .error .emptyRangeStr
  else (splitAll ',' range_str).foldlM (processPart total_slides) ∅

/-! # Theorems -/

/-! ## Helper lemmas about string primitives -/

theorem removesuffix_append (s suf : Str) (h : suf ≠ []) :
    removesuffix (s ++ suf) suf = s := by
  have hsuf : suf <:+ s ++ suf := List.suffix_append s suf
  rw [removesuffix, if_pos ⟨h, hsuf⟩, List.length_append, Nat.add_sub_cancel,
    List.take_left]

theorem removesuffix_of_not_suffix (s suf : Str) (h : ¬ suf <:+ s) :
    removesuffix s suf = s := by
  rw [removesuffix, if_neg]
  exact fun hc => h hc.2

theorem reverse_individual_words_append_eol (s : Str) :
    reverse_individual_words (s ++ EOL_MARKER) = wordRev s ++ EOL_MARKER := by
  have heol : EOL_MARKER <:+ s ++ EOL_MARKER := List.suffix_append s EOL_MARKER
  have hdrop : (s ++ EOL_MARKER).dropLast = s := List.dropLast_concat
  rw [reverse_individual_words]
  simp only [heol, if_pos, hdrop]
  rfl

theorem splitAll_append_sep (sep : Char) (xs ys : Str) (h : sep ∉ xs) :
    splitAll sep (xs ++ sep :: ys) = xs :: splitAll sep ys := by
  induction xs with
  | nil => simp [splitAll]
  | cons c cs ih =>
    have hc : c ≠ sep := fun hcs => h (hcs ▸ List.mem_cons_self c cs)
    have hcs : sep ∉ cs := fun hm => h (List.mem_cons_of_mem c hm)
    simp only [List.cons_append, splitAll, if_neg hc, List.append_eq]
    rw [ih hcs]

theorem splitAll_of_not_mem (sep : Char) (xs : Str) (h : sep ∉ xs) :
    splitAll sep xs = [xs] := by
  induction xs with
  | nil => rfl
  | cons c cs ih =>
    have hc : c ≠ sep := fun hcs => h (hcs ▸ List.mem_cons_self c cs)
    have hcs : sep ∉ cs := fun hm => h (List.mem_cons_of_mem c hm)
    simp only [splitAll, if_neg hc, ih hcs]

theorem splitAll_joinWith (sep : Char) (l : List Str) (hne : l ≠ [])
    (h : ∀ t ∈ l, sep ∉ t) : splitAll sep (joinWith sep l) = l := by
  induction l with
  | nil => exact absurd rfl hne
  | cons t ts ih =>
    cases ts with
    | nil =>
      simpa [joinWith] using splitAll_of_not_mem sep t (h t (by simp))
    | cons t' ts' =>
      have ht : sep ∉ t := h t (by simp)
      have hrest : ∀ u ∈ t' :: ts', sep ∉ u :=
        fun u hu => h u (List.mem_cons_of_mem t hu)
      rw [show joinWith sep (t :: t' :: ts') =
            t ++ sep :: joinWith sep (t' :: ts') from rfl,
        splitAll_append_sep sep t _ ht, ih (by simp) hrest]

theorem joinWith_injOn (sep : Char) (l1 l2 : List Str)
    (h1 : l1 ≠ []) (h2 : l2 ≠ [])
    (hp1 : ∀ t ∈ l1, sep ∉ t) (hp2 : ∀ t ∈ l2, sep ∉ t)
    (hne : l1 ≠ l2) : joinWith sep l1 ≠ joinWith sep l2 := by
  intro heq
  apply hne
  calc l1 = splitAll sep (joinWith sep l1) := (splitAll_joinWith sep l1 h1 hp1).symm
    _ = splitAll sep (joinWith sep l2) := by rw [heq]
    _ = l2 := splitAll_joinWith sep l2 h2 hp2

theorem splitFirst?_append (sep : Char) (xs ys : Str) (h : sep ∉ xs) :
    splitFirst? sep (xs ++ sep :: ys) = some (xs, ys) := by
  induction xs with
  | nil => simp [splitFirst?]
  | cons c cs ih =>
    have hc : c ≠ sep := fun hcs => h (hcs ▸ List.mem_cons_self c cs)
    have hcs : sep ∉ cs := fun hm => h (List.mem_cons_of_mem c hm)
    simp only [List.cons_append, splitFirst?, if_neg hc, List.append_eq]
    rw [ih hcs]

theorem dropWhile_eq_self_of_head (p : Char → Bool) (c : Char) (l : Str)
    (h : p c = false) : (c :: l).dropWhile p = c :: l := by
  simp [List.dropWhile, h]

theorem dropWhile_eq_self_of_all (p : Char → Bool) (s : Str)
    (h : ∀ c ∈ s, p c = false) : s.dropWhile p = s := by
  cases s with
  | nil => rfl
  | cons c l => exact dropWhile_eq_self_of_head p c l (h c (by simp))

theorem pyStrip_eq_self_of_ends (c d : Char) (mid : Str)
    (hc : pyIsSpace c = false) (hd : pyIsSpace d = false) :
    pyStrip (c :: (mid ++ [d])) = c :: (mid ++ [d]) := by
  rw [pyStrip, dropWhile_eq_self_of_head _ _ _ hc]
  have hrev : (c :: (mid ++ [d])).reverse = d :: (mid.reverse ++ [c]) := by
    simp
  rw [hrev, dropWhile_eq_self_of_head _ _ _ hd, ← hrev, List.reverse_reverse]

theorem pyStrip_eq_self_of_all (s : Str)
    (h : ∀ c ∈ s, pyIsSpace c = false) : pyStrip s = s := by
  rw [pyStrip, dropWhile_eq_self_of_all _ _ h,
    dropWhile_eq_self_of_all _ _ (fun c hc => h c (List.mem_reverse.mp hc)),
    List.reverse_reverse]

/-! ## Helper lemmas about decimal rendering -/

theorem toDecimalAux_isDigit (fuel n : Nat) (hn : n < fuel) :
    ∀ c ∈ toDecimalAux fuel n, c.isDigit = true := by
  induction fuel generalizing n with
  | zero => omega
  | succ fuel ih =>
    intro c hc
    rw [toDecimalAux] at hc
    by_cases h10 : n < 10
    · rw [if_pos h10] at hc
      simp only [List.mem_singleton] at hc
      subst hc
      interval_cases n <;> decide
    · rw [if_neg h10] at hc
      rcases List.mem_append.mp hc with hm | hm
      · exact ih (n / 10) (by omega) c hm
      · simp only [List.mem_singleton] at hm
        subst hm
        have : n % 10 < 10 := Nat.mod_lt n (by omega)
        interval_cases h : n % 10 <;> simp_all

theorem natDecimal_isDigit (n : Nat) : ∀ c ∈ natDecimal n, c.isDigit = true :=
  toDecimalAux_isDigit (n + 1) n (Nat.lt_succ_self n)

theorem isDigit_not_space (c : Char) (h : c.isDigit = true) :
    pyIsSpace c = false := by
  by_contra hsp
  rw [Bool.not_eq_false] at hsp
  have hcs : c = ' ' ∨ c = '\t' ∨ c = '\n' ∨ c = '\x0d' ∨ c = '\x0b' ∨
      c = '\x0c' := by
    simpa [pyIsSpace, or_assoc] using hsp
  rcases hcs with rfl | rfl | rfl | rfl | rfl | rfl <;> exact absurd h (by decide)

theorem isDigit_ne (c d : Char) (h : c.isDigit = true)
    (hd : d.isDigit = false) : c ≠ d := by
  intro hc
  subst hc
  rw [h] at hd
  exact absurd hd (by simp)

theorem toDecimalAux_ne_nil (fuel n : Nat) (hn : n < fuel) :
    toDecimalAux fuel n ≠ [] := by
  cases fuel with
  | zero => omega
  | succ fuel =>
    rw [toDecimalAux]
    by_cases h10 : n < 10
    · simp [if_pos h10]
    · simp [if_neg h10]

theorem toDecimalAux_val (fuel n : Nat) (hn : n < fuel) :
    (toDecimalAux fuel n).foldl (fun a c => 10 * a + (c.toNat - 48)) 0 = n := by
  induction fuel generalizing n with
  | zero => omega
  | succ fuel ih =>
    rw [toDecimalAux]
    by_cases h10 : n < 10
    · rw [if_pos h10]
      simp only [List.foldl_cons, List.foldl_nil]
      interval_cases n <;> decide
    · rw [if_neg h10]
      rw [List.foldl_append]
      rw [ih (n / 10) (by omega)]
      simp only [List.foldl_cons, List.foldl_nil]
      have hlt : n % 10 < 10 := Nat.mod_lt n (by omega)
      have hval : (Char.ofNat (48 + n % 10)).toNat = 48 + n % 10 := by
        interval_cases h : n % 10 <;> simp_all
      rw [hval]
      omega

theorem pyInt?_natDecimal (n : Nat) : pyInt? (natDecimal n) = some n := by
  have hne : natDecimal n ≠ [] :=
    toDecimalAux_ne_nil (n + 1) n (Nat.lt_succ_self n)
  have hdig := natDecimal_isDigit n
  have hhead : (natDecimal n).head? ≠ some '+' := by
    cases h : natDecimal n with
    | nil => exact absurd h hne
    | cons c cs =>
      have hc : c.isDigit = true := hdig c (by rw [h]; simp)
      have hcp : c ≠ '+' := isDigit_ne c '+' hc (by decide)
      simpa using hcp
  rw [pyInt?]
  simp only [if_neg hhead]
  rw [if_pos ⟨hne, by simpa [List.all_eq_true] using hdig⟩]
  exact congrArg some (toDecimalAux_val (n + 1) n (Nat.lt_succ_self n))

/-! ## Helper lemmas about the dict model -/

theorem dictLookup_dictInsert {β : Type} (d : Dict β) (k k' : Str) (v : β) :
    dictLookup (dictInsert d k v) k' =
      if k' = k then some v else dictLookup d k' := by
  induction d with
  | nil =>
    simp only [dictInsert, dictLookup]
    by_cases h : k = k'
    · rw [if_pos h, if_pos h.symm]
    · rw [if_neg h, if_neg (fun hc => h hc.symm)]
  | cons p ps ih =>
    rw [dictInsert]
    by_cases hp : p.1 = k
    · rw [if_pos hp]
      simp only [dictLookup]
      by_cases h : k = k'
      · rw [if_pos h, if_pos h.symm]
      · rw [if_neg h, if_neg (fun hc => h hc.symm),
          if_neg (by rw [hp]; exact h)]
    · rw [if_neg hp]
      simp only [dictLookup]
      by_cases hq : p.1 = k'
      · rw [if_pos hq, if_pos hq,
          if_neg (fun hc : k' = k => hp (hq.trans hc))]
      · rw [if_neg hq, ih, if_neg hq]

/-! ## Helper lemmas about decimal-rendered range parts -/

theorem natDecimal_not_space (n : Nat) :
    ∀ c ∈ natDecimal n, pyIsSpace c = false :=
  fun c hc => isDigit_not_space c (natDecimal_isDigit n c hc)

theorem not_mem_natDecimal (n : Nat) (d : Char) (hd : d.isDigit = false) :
    d ∉ natDecimal n := by
  intro hm
  rw [natDecimal_isDigit n d hm] at hd
  exact absurd hd (by simp)

theorem pyStrip_dashed (s e : Nat) :
    pyStrip (natDecimal s ++ '-' :: natDecimal e) =
      natDecimal s ++ '-' :: natDecimal e := by
  apply pyStrip_eq_self_of_all
  intro c hc
  rcases List.mem_append.mp hc with hm | hm
  · exact natDecimal_not_space s c hm
  · rcases List.mem_cons.mp hm with rfl | hm
    · decide
    · exact natDecimal_not_space e c hm

theorem parseStartBound_decimal (s : Nat) (part : Str) (h : ¬ s < 1) :
    parseStartBound (natDecimal s) part = .ok s := by
  have hnd : natDecimal s ≠ [] := toDecimalAux_ne_nil _ _ (Nat.lt_succ_self s)
  simp [parseStartBound, hnd, pyInt?_natDecimal, h]

theorem parseEndBound_decimal (e : Nat) (part : Str) (total : Nat)
    (h : ¬ e < 1) : parseEndBound (natDecimal e) part total = .ok e := by
  have hnd : natDecimal e ≠ [] := toDecimalAux_ne_nil _ _ (Nat.lt_succ_self e)
  simp [parseEndBound, hnd, pyInt?_natDecimal, h]

theorem contains_dash (s e : Nat) :
    (natDecimal s ++ '-' :: natDecimal e).contains '-' = true := by
  have : '-' ∈ natDecimal s ++ '-' :: natDecimal e := by simp
  exact List.elem_eq_true_of_mem this

theorem processPart_start_beyond (total : Nat) (sel : Finset Nat) (s e : Nat)
    (h1 : total < s) (h2 : s ≤ e) :
    processPart total sel (natDecimal s ++ '-' :: natDecimal e) = .ok sel := by
  have hstrip := pyStrip_dashed s e
  have hne : natDecimal s ++ '-' :: natDecimal e ≠ [] := by simp
  have hsplit : splitFirst? '-' (natDecimal s ++ '-' :: natDecimal e) =
      some (natDecimal s, natDecimal e) :=
    splitFirst?_append '-' _ _ (not_mem_natDecimal s '-' (by decide))
  have hs1 : pyStrip (natDecimal s) = natDecimal s :=
    pyStrip_eq_self_of_all _ (natDecimal_not_space s)
  have hs2 : pyStrip (natDecimal e) = natDecimal e :=
    pyStrip_eq_self_of_all _ (natDecimal_not_space e)
  have hnogt : ¬ s > e := by omega
  have hbeyond : s > total := h1
  rw [processPart]
  simp only [hstrip, if_neg hne, contains_dash s e, if_true, hsplit,
    Option.getD_some, hs1, hs2,
    parseStartBound_decimal s _ (by omega),
    parseEndBound_decimal e _ total (by omega),
    if_neg hnogt, if_pos hbeyond]

theorem processPart_capped (total : Nat) (sel : Finset Nat) (s e : Nat)
    (h0 : 1 ≤ s) (h2 : s ≤ e) (h3 : s ≤ total) :
    processPart total sel (natDecimal s ++ '-' :: natDecimal e) =
      .ok (sel ∪ (Finset.Icc s (min e total)).image (· - 1)) := by
  have hstrip := pyStrip_dashed s e
  have hne : natDecimal s ++ '-' :: natDecimal e ≠ [] := by simp
  have hsplit : splitFirst? '-' (natDecimal s ++ '-' :: natDecimal e) =
      some (natDecimal s, natDecimal e) :=
    splitFirst?_append '-' _ _ (not_mem_natDecimal s '-' (by decide))
  have hs1 : pyStrip (natDecimal s) = natDecimal s :=
    pyStrip_eq_self_of_all _ (natDecimal_not_space s)
  have hs2 : pyStrip (natDecimal e) = natDecimal e :=
    pyStrip_eq_self_of_all _ (natDecimal_not_space e)
  have hnogt : ¬ s > e := by omega
  have hnobeyond : ¬ s > total := by omega
  rw [processPart]
  simp only [hstrip, if_neg hne, contains_dash s e, if_true, hsplit,
    Option.getD_some, hs1, hs2,
    parseStartBound_decimal s _ (by omega),
    parseEndBound_decimal e _ total (by omega),
    if_neg hnogt, if_neg hnobeyond]

theorem processPart_open_beyond (total : Nat) (sel : Finset Nat) (s : Nat)
    (h1 : total < s) :
    processPart total sel (natDecimal s ++ ['-']) =
      .error (.invertedRange s total (natDecimal s ++ ['-'])) := by
  have hstrip : pyStrip (natDecimal s ++ ['-']) = natDecimal s ++ ['-'] := by
    apply pyStrip_eq_self_of_all
    intro c hc
    rcases List.mem_append.mp hc with hm | hm
    · exact natDecimal_not_space s c hm
    · rcases List.mem_cons.mp hm with rfl | hm
      · decide
      · simp at hm
  have hne : natDecimal s ++ ['-'] ≠ [] := by simp
  have hcont : (natDecimal s ++ ['-']).contains '-' = true :=
    List.elem_eq_true_of_mem (by simp)
  have hsplit : splitFirst? '-' (natDecimal s ++ ['-']) =
      some (natDecimal s, []) :=
    splitFirst?_append '-' _ [] (not_mem_natDecimal s '-' (by decide))
  have hs1 : pyStrip (natDecimal s) = natDecimal s :=
    pyStrip_eq_self_of_all _ (natDecimal_not_space s)
  have hgt : s > total := h1
  rw [processPart]
  simp only [hstrip, if_neg hne, hcont, if_true, hsplit, Option.getD_some,
    hs1, parseStartBound_decimal s _ (by omega)]
  rw [show pyStrip [] = [] from rfl]
  simp only [parseEndBound, ne_eq, not_true_eq_false, reduceIte,
    if_pos hgt]

/-! ## Claim C3: page-range boundary behaviour -/

/-- C3 counterexample: `parse("1,3-5,8-", total=7)` does not return
`{0,2,3,4,5,6}` as claimed; the part `"8-"` gets its end defaulted to the
total (7), so start 8 > end 7 raises the inverted-range error (this is
also what the repository's own test
`err_start_gt_total_open_end` asserts for `"7-"` with 5 slides). -/
theorem parse_page_range_example_mismatch :
    parse_page_range (str "1,3-5,8-") 7 ≠ .ok {0, 2, 3, 4, 5, 6} ∧
    parse_page_range (str "1,3-5,8-") 7 =
      .error (.invertedRange 8 7 (str "8-")) := by
  exact ⟨by decide, by decide⟩

/-- C3 (amended): `parse("3-",5)={2,3,4}`, `parse("-3",5)={0,1,2}`,
`parse("99",5)` errors out-of-range, `parse("",0)=∅` without error; but
`parse("1,3-5,8-",7)` raises an inverted-range error, because an open-ended
part `"N-"` defaults its end to the total slide count, so a start beyond
the total makes start > end. A part with an *explicit* end whose start
exceeds the total contributes no pages and only warns; a part whose
explicit end exceeds the total (with the start in range) is capped at the
total with a warning. -/
theorem parse_page_range_boundaries :
    parse_page_range (str "3-") 5 = .ok {2, 3, 4} ∧
    parse_page_range (str "-3") 5 = .ok {0, 1, 2} ∧
    parse_page_range (str "99") 5 = .error (.singleOutOfRange 99 (str "99")) ∧
    parse_page_range (str "") 0 = .ok ∅ ∧
    parse_page_range (str "1,3-5,8-") 7 =
      .error (.invertedRange 8 7 (str "8-")) ∧
    (∀ (total : Nat) (sel : Finset Nat) (s e : Nat), total < s → s ≤ e →
      processPart total sel (natDecimal s ++ '-' :: natDecimal e) = .ok sel) ∧
    (∀ (total : Nat) (sel : Finset Nat) (s e : Nat),
      1 ≤ s → s ≤ e → s ≤ total →
      processPart total sel (natDecimal s ++ '-' :: natDecimal e) =
        .ok (sel ∪ (Finset.Icc s (min e total)).image (· - 1))) ∧
    (∀ (total : Nat) (sel : Finset Nat) (s : Nat), total < s →
      processPart total sel (natDecimal s ++ ['-']) =
        .error (.invertedRange s total (natDecimal s ++ ['-']))) :=
  ⟨by decide, by decide, by decide, by decide, by decide,
   processPart_start_beyond, processPart_capped, processPart_open_beyond⟩

/-- Witness for C3 (amended): the general no-pages / capping / open-end
parts applied at `total = 5` with concrete range parts `"7-8"`, `"3-7"` and
`"7-"`. -/
theorem parse_page_range_boundaries_witness :
    processPart 5 ∅ (natDecimal 7 ++ '-' :: natDecimal 8) = .ok ∅ ∧
    processPart 5 ∅ (natDecimal 3 ++ '-' :: natDecimal 7) =
      .ok (∅ ∪ (Finset.Icc 3 (min 7 5)).image (· - 1)) ∧
    processPart 5 ∅ (natDecimal 7 ++ ['-']) =
      .error (.invertedRange 7 5 (natDecimal 7 ++ ['-'])) :=
  ⟨parse_page_range_boundaries.2.2.2.2.2.1 5 ∅ 7 8 (by decide) (by decide),
   parse_page_range_boundaries.2.2.2.2.2.2.1 5 ∅ 3 7 (by decide) (by decide)
     (by decide),
   parse_page_range_boundaries.2.2.2.2.2.2.2 5 ∅ 7 (by decide)⟩

/-! ## Claim C4: reconciler whitespace preservation -/

/-- C4 counterexample: for the response line `"t1: x "` (no trailing EOL
sentinel), the reconciler stores `" x"`, not `" x "`: the line is stripped
of trailing whitespace *before* the colon split, so `rest` does not retain
the trailing whitespace the model returned. -/
theorem reconciler_strips_trailing_whitespace :
    (update_data_from_llm_response [str "t1: x "]
        [⟨str "t1", str "x", str "x<", 0, str "h"⟩]
        [⟨0, none, false, str "x", some (str "t1")⟩] [] EOL_MARKER).1 =
      [⟨0, some (str " x"), false, str "x", some (str "t1")⟩] ∧
    str " x" ≠ str " x " := by
  exact ⟨by decide, by decide⟩

/-- C4 (amended): each response line is stripped of leading and trailing
whitespace *before* being split on its first colon, so `rest` retains its
leading whitespace but not bare trailing whitespace of the line; trailing
whitespace survives exactly when it is protected by a trailing EOL
sentinel. Concretely, for an id without whitespace or colons and an
arbitrary translation `t`, the line `id ++ ":" ++ t ++ "<"` parses to
`(id, t ++ "<")` and the stored translation is exactly `t` — one trailing
sentinel is removed and every character of `t`, leading and trailing
whitespace included, is preserved; a `rest` not ending in the sentinel is
stored unchanged. -/
theorem reconciler_whitespace (idStr t : Str) (hne : idStr ≠ [])
    (hid : ∀ c ∈ idStr, pyIsSpace c = false ∧ c ≠ ':') :
    parseResponseLine (idStr ++ ':' :: (t ++ EOL_MARKER)) =
      some (idStr, t ++ EOL_MARKER) ∧
    removesuffix (t ++ EOL_MARKER) EOL_MARKER = t ∧
    (∀ rest : Str, ¬ EOL_MARKER <:+ rest →
      removesuffix rest EOL_MARKER = rest) := by
  refine ⟨?_, removesuffix_append t EOL_MARKER (by decide),
    fun rest h => removesuffix_of_not_suffix rest EOL_MARKER h⟩
  obtain ⟨c, cs, rfl⟩ := List.exists_cons_of_ne_nil hne
  have hstrip : pyStrip ((c :: cs) ++ ':' :: (t ++ EOL_MARKER)) =
      (c :: cs) ++ ':' :: (t ++ EOL_MARKER) := by
    have hshape : (c :: cs) ++ ':' :: (t ++ EOL_MARKER) =
        c :: ((cs ++ ':' :: t) ++ ['<']) := by simp [EOL_MARKER]
    rw [hshape]
    exact pyStrip_eq_self_of_ends c '<' (cs ++ ':' :: t)
      (hid c (by simp)).1 (by decide)
  have hsplit : splitFirst? ':' ((c :: cs) ++ ':' :: (t ++ EOL_MARKER)) =
      some (c :: cs, t ++ EOL_MARKER) :=
    splitFirst?_append ':' (c :: cs) (t ++ EOL_MARKER)
      (fun hm => (hid ':' hm).2 rfl)
  have hids : pyStrip (c :: cs) = c :: cs :=
    pyStrip_eq_self_of_all (c :: cs) (fun d hd => (hid d hd).1)
  rw [parseResponseLine]
  simp only [hstrip, hsplit, hids]
  rw [if_neg (by simp)]

/-- Witness for C4 (amended) at `id = "t1"`, `t = "  hi  "` (leading and
trailing whitespace in the translation, protected by the sentinel). -/
theorem reconciler_whitespace_witness :
    parseResponseLine (str "t1" ++ ':' :: (str "  hi  " ++ EOL_MARKER)) =
      some (str "t1", str "  hi  " ++ EOL_MARKER) ∧
    removesuffix (str "  hi  " ++ EOL_MARKER) EOL_MARKER = str "  hi  " ∧
    (∀ rest : Str, ¬ EOL_MARKER <:+ rest →
      removesuffix rest EOL_MARKER = rest) :=
  reconciler_whitespace (str "t1") (str "  hi  ") (by decide) (by decide)

/-! ## Claim C6: identifier scheme -/

/-- C6: the id scheme of the claim (and of
`cache.prepare_slide_for_translation`, which the test suite expects `main`
to call) is `pg<1-indexed page>_txt<global counter>`; but `main`'s inline
planner — the code that actually runs in an invocation — assigns
`text_<counter>` instead. At the failing input (translate mode, empty
cache, slide 1 = `["Hei "]` then slide 2 = `["maailma"]`, counter threaded
between slides), `main` produces ids `text_0`, `text_1` while the claimed
scheme produces `pg1_txt0`, `pg2_txt1`; the counter is monotonic and not
reset per page in both, but the claimed `pg…` form never occurs in `main`'s
output. -/
theorem main_ids_not_pg_format :
    ((mainPlanSlide [⟨str "Hei ", 0⟩] (str "h1") [] 0
        []).global_texts_for_llm_prompt.map LlmQueueItem.id = [str "text_0"]) ∧
    ((mainPlanSlide [⟨str "maailma", 1⟩] (str "h2") []
        (mainPlanSlide [⟨str "Hei ", 0⟩] (str "h1") [] 0 []).text_id_counter
        []).global_texts_for_llm_prompt.map LlmQueueItem.id = [str "text_1"]) ∧
    ((prepare_slide_for_translation [⟨str "Hei ", 0⟩] (str "h1") [] 0
        EOL_MARKER 1).texts_for_llm.map LlmQueueItem.id = [str "pg1_txt0"]) ∧
    ((prepare_slide_for_translation [⟨str "maailma", 1⟩] (str "h2") []
        (prepare_slide_for_translation [⟨str "Hei ", 0⟩] (str "h1") [] 0
          EOL_MARKER 1).text_id_counter
        EOL_MARKER 2).texts_for_llm.map LlmQueueItem.id = [str "pg2_txt1"]) ∧
    str "text_0" ≠ str "pg1_txt0" := by
  exact ⟨by decide, by decide, by decide, by decide, by decide⟩

/-! ## Claim C2: cache commit semantics -/

theorem commit_lookup_of_not_mem (pending : TranslationCache)
    (cache : TranslationCache) (ph : Str) (h : ∀ p ∈ pending, p.1 ≠ ph) :
    dictLookup (commit_pending_cache_updates cache pending) ph =
      dictLookup cache ph := by
  induction pending generalizing cache with
  | nil => rfl
  | cons p rest ih =>
    have hp : p.1 ≠ ph := h p (by simp)
    have hrest : ∀ q ∈ rest, q.1 ≠ ph := fun q hq => h q (by simp [hq])
    rw [commit_pending_cache_updates, List.foldl_cons,
      ← commit_pending_cache_updates, ih _ hrest]
    by_cases h1 : p.2 ≠ []
    · rw [if_pos h1, dictLookup_dictInsert, if_neg (fun hc => hp hc.symm)]
    · rw [if_neg h1]
      by_cases h2 : dictContains cache p.1
      · rw [if_pos h2, dictLookup_dictInsert, if_neg (fun hc => hp hc.symm)]
      · rw [if_neg h2]

theorem dictLookup_eq_none_keys {β : Type} (d : Dict β) (ph : Str)
    (h : dictLookup d ph = none) : ∀ p ∈ d, p.1 ≠ ph := by
  induction d with
  | nil => simp
  | cons p rest ih =>
    rw [dictLookup] at h
    by_cases hp : p.1 = ph
    · rw [if_pos hp] at h
      exact absurd h (by simp)
    · rw [if_neg hp] at h
      intro q hq
      rcases List.mem_cons.mp hq with rfl | hq
      · exact hp
      · exact ih h q hq

theorem commit_lookup_of_some (cache pending : TranslationCache) (ph : Str)
    (hnodup : (pending.map Prod.fst).Nodup) (lst : List CacheItem)
    (hlst : dictLookup pending ph = some lst) :
    dictLookup (commit_pending_cache_updates cache pending) ph =
      if lst ≠ [] then some lst
      else if dictContains cache ph then some [] else dictLookup cache ph := by
  induction pending generalizing cache with
  | nil => exact absurd hlst (by simp [dictLookup])
  | cons p rest ih =>
    rw [List.map_cons, List.nodup_cons] at hnodup
    obtain ⟨hknotin, hnod'⟩ := hnodup
    rw [commit_pending_cache_updates, List.foldl_cons,
      ← commit_pending_cache_updates]
    rw [dictLookup] at hlst
    by_cases hph : p.1 = ph
    · rw [if_pos hph] at hlst
      injection hlst with hlst
      subst hlst
      subst hph
      rw [commit_lookup_of_not_mem rest _ p.1
        (fun q hq hc => hknotin (hc ▸ List.mem_map.mpr ⟨q, hq, rfl⟩))]
      by_cases h1 : p.2 ≠ []
      · rw [if_pos h1, if_pos h1, dictLookup_dictInsert, if_pos rfl]
      · rw [if_neg h1, if_neg h1]
        by_cases h2 : dictContains cache p.1
        · rw [if_pos h2, if_pos h2, dictLookup_dictInsert, if_pos rfl]
        · rw [if_neg h2, if_neg h2]
    · rw [if_neg hph] at hlst
      have hstep : ∀ (d : TranslationCache),
          dictLookup ((if p.2 ≠ [] then dictInsert d p.1 p.2
            else if dictContains d p.1 then dictInsert d p.1 []
            else d) : TranslationCache) ph = dictLookup d ph := by
        intro d
        by_cases h1 : p.2 ≠ []
        · rw [if_pos h1, dictLookup_dictInsert, if_neg (fun hc => hph hc.symm)]
        · rw [if_neg h1]
          by_cases h2 : dictContains d p.1
          · rw [if_pos h2, dictLookup_dictInsert,
              if_neg (fun hc => hph hc.symm)]
          · rw [if_neg h2]
      have hcont : ∀ (d : TranslationCache),
          dictContains ((if p.2 ≠ [] then dictInsert d p.1 p.2
            else if dictContains d p.1 then dictInsert d p.1 []
            else d) : TranslationCache) ph = dictContains d ph :=
        fun d => congrArg Option.isSome (hstep d)
      rw [ih _ hnod' hlst, hstep cache, hcont cache]

/-- C2: for each fingerprint in the pending-updates map (whose keys are
distinct, as they are for a Python dict): a non-empty pending list
overwrites the cache entry with exactly that list; an empty pending list
clears an existing cache entry to `[]`; an empty pending list for an
absent fingerprint adds no entry; and fingerprints not present in the
pending map keep their cache entries unchanged. (The subsequent
persistence is the `save_cache` call, modelled in `mainFinishTranslate`.) -/
theorem commit_pending_cache_updates_semantics
    (cache pending : TranslationCache) (ph : Str)
    (hnodup : (pending.map Prod.fst).Nodup) :
    (∀ lst, dictLookup pending ph = some lst → lst ≠ [] →
      dictLookup (commit_pending_cache_updates cache pending) ph = some lst) ∧
    (dictLookup pending ph = some [] → dictContains cache ph →
      dictLookup (commit_pending_cache_updates cache pending) ph = some []) ∧
    (dictLookup pending ph = some [] → ¬ dictContains cache ph →
      dictLookup (commit_pending_cache_updates cache pending) ph = none) ∧
    (dictLookup pending ph = none →
      dictLookup (commit_pending_cache_updates cache pending) ph =
        dictLookup cache ph) := by
  refine ⟨fun lst hl hne => ?_, fun hl hc => ?_, fun hl hc => ?_, fun hl => ?_⟩
  · rw [commit_lookup_of_some cache pending ph hnodup lst hl, if_pos hne]
  · rw [commit_lookup_of_some cache pending ph hnodup [] hl,
      if_neg (by simp), if_pos hc]
  · rw [commit_lookup_of_some cache pending ph hnodup [] hl,
      if_neg (by simp), if_neg hc]
    cases hcl : dictLookup cache ph with
    | none => rfl
    | some v => exact absurd (by rw [dictContains, hcl]; rfl) hc
  · exact commit_lookup_of_not_mem pending cache ph
      (dictLookup_eq_none_keys pending ph hl)

/-- Witness for C2 at a three-entry pending map exercising the branches
(clear existing `"a"`, ignore absent `"b"`, overwrite `"c"`), looked up at
fingerprint `"a"` (an existing entry cleared by an empty pending list). -/
theorem commit_pending_cache_updates_semantics_witness :
    ((([(str "a", ([] : List CacheItem)), (str "b", []),
        (str "c", [⟨str "o", str "t"⟩])] : TranslationCache).map
          Prod.fst).Nodup) ∧
    dictLookup ([(str "a", ([] : List CacheItem)), (str "b", []),
      (str "c", [⟨str "o", str "t"⟩])] : TranslationCache) (str "a") =
        some [] ∧
    dictContains ([(str "a", [⟨str "x", str "y"⟩])] : TranslationCache)
      (str "a") = true ∧
    dictLookup
      (commit_pending_cache_updates [(str "a", [⟨str "x", str "y"⟩])]
        [(str "a", []), (str "b", []), (str "c", [⟨str "o", str "t"⟩])])
      (str "a") = some [] :=
  ⟨by decide, by decide, by decide,
   (commit_pending_cache_updates_semantics [(str "a", [⟨str "x", str "y"⟩])]
     [(str "a", []), (str "b", []), (str "c", [⟨str "o", str "t"⟩])]
     (str "a") (by decide)).2.1 (by decide) (by decide)⟩

/-! ## Claim C1: partial-hit safety of the planner -/

theorem forall2_imp {α β : Type} {R S : α → β → Prop} {l1 : List α}
    {l2 : List β} (h : List.Forall₂ R l1 l2)
    (himp : ∀ a b, R a b → S a b) : List.Forall₂ S l1 l2 := by
  induction h with
  | nil => exact List.Forall₂.nil
  | cons hab _ ih => exact List.Forall₂.cons (himp _ _ hab) ih

theorem prepHitRuns_spec (page_hash : Str) (entry : List CacheItem)
    (eol_marker : Str) (page : Nat) :
    ∀ (runs : List RunInfo) (ctr : Nat),
      List.Forall₂
        (fun (run : RunInfo) (rec : ProcessedRun) =>
          rec.original_text = run.original_text ∧
          rec.run_object = run.run_object ∧
          ((∃ item ∈ entry, item.original_text = run.original_text) →
            rec.from_cache = true ∧ rec.llm_id = none ∧
            ∃ item ∈ entry, item.original_text = run.original_text ∧
              rec.final_translation = some item.translation) ∧
          ((¬ ∃ item ∈ entry, item.original_text = run.original_text) →
            rec.from_cache = false ∧ rec.final_translation = none ∧
            ∃ q ∈ (prepHitRuns page_hash entry eol_marker page runs
                ctr).texts_for_llm,
              rec.llm_id = some q.id ∧
              q.original_text_for_cache = run.original_text ∧
              q.text_to_send = run.original_text ++ eol_marker ∧
              q.run_object = run.run_object ∧ q.page_hash = page_hash))
        runs
        (prepHitRuns page_hash entry eol_marker page runs
          ctr).processed_runs_for_slide := by
  intro runs
  induction runs with
  | nil => intro ctr; exact List.Forall₂.nil
  | cons r rs ih =>
    intro ctr
    cases hfind : entry.find?
        (fun item => item.original_text == r.original_text) with
    | some item =>
      have hmem : item ∈ entry := List.mem_of_find?_eq_some hfind
      have heq : item.original_text = r.original_text := by
        have := List.find?_some hfind
        exact eq_of_beq this
      simp only [prepHitRuns, hfind]
      refine List.Forall₂.cons ?_ ?_
      · refine ⟨rfl, rfl, fun _ => ⟨rfl, rfl, item, hmem, heq, rfl⟩,
          fun hno => absurd ⟨item, hmem, heq⟩ hno⟩
      · exact ih ctr
    | none =>
      have hno : ¬ ∃ item ∈ entry, item.original_text = r.original_text := by
        rintro ⟨item, hmem, heq⟩
        have := List.find?_eq_none.mp hfind item hmem
        exact this (by simp [heq])
      simp only [prepHitRuns, hfind]
      refine List.Forall₂.cons ?_ ?_
      · exact ⟨rfl, rfl, fun h => absurd h hno,
          fun _ => ⟨rfl, rfl,
            ⟨mkId page ctr, r.original_text, r.original_text ++ eol_marker,
              r.run_object, page_hash⟩,
            by simp, rfl, rfl, rfl, rfl, rfl⟩⟩
      · refine forall2_imp (ih (ctr + 1)) ?_
        rintro run rec ⟨h1, h2, h3, h4⟩
        refine ⟨h1, h2, h3, fun hn => ?_⟩
        obtain ⟨h5, h6, q, hq, hrest⟩ := h4 hn
        exact ⟨h5, h6, q, List.mem_cons_of_mem _ hq, hrest⟩

/-- C1: on a slide whose page fingerprint has a cache entry, every
extracted run is paired (in order, none dropped — `List.Forall₂` forces
equal lengths) with exactly one processed record: if the run's exact
original text equals the `original_text` of some item in the entry's list,
the record is served from cache with that item's translation and no LLM
id; otherwise the run is queued — its record carries the id of a queue
item whose `text_to_send` is the original text plus the EOL sentinel. -/
theorem prepare_partial_hit_safety (slide_run_info : List RunInfo)
    (page_hash : Str) (translation_cache : TranslationCache) (ctr : Nat)
    (eol_marker : Str) (page : Nat) (entry : List CacheItem)
    (hentry : dictLookup translation_cache page_hash = some entry) :
    List.Forall₂
      (fun (run : RunInfo) (rec : ProcessedRun) =>
        rec.original_text = run.original_text ∧
        rec.run_object = run.run_object ∧
        ((∃ item ∈ entry, item.original_text = run.original_text) →
          rec.from_cache = true ∧ rec.llm_id = none ∧
          ∃ item ∈ entry, item.original_text = run.original_text ∧
            rec.final_translation = some item.translation) ∧
        ((¬ ∃ item ∈ entry, item.original_text = run.original_text) →
          rec.from_cache = false ∧ rec.final_translation = none ∧
          ∃ q ∈ (prepare_slide_for_translation slide_run_info page_hash
              translation_cache ctr eol_marker page).texts_for_llm,
            rec.llm_id = some q.id ∧
            q.original_text_for_cache = run.original_text ∧
            q.text_to_send = run.original_text ++ eol_marker ∧
            q.run_object = run.run_object ∧ q.page_hash = page_hash))
      slide_run_info
      (prepare_slide_for_translation slide_run_info page_hash
        translation_cache ctr eol_marker page).processed_runs_for_slide := by
  have hprep : prepare_slide_for_translation slide_run_info page_hash
      translation_cache ctr eol_marker page =
      prepHitRuns page_hash entry eol_marker page slide_run_info ctr := by
    rw [prepare_slide_for_translation, hentry]
  rw [hprep]
  exact prepHitRuns_spec page_hash entry eol_marker page slide_run_info ctr

/-- Witness for C1: a two-run slide (`"Hei "` cached, `"maailma"` not)
against a single-item cache entry for its fingerprint — the partial-hit
scenario. -/
theorem prepare_partial_hit_safety_witness :
    dictLookup ([(str "h", [⟨str "Hei ", str "Hello "⟩])] : TranslationCache)
      (str "h") = some [⟨str "Hei ", str "Hello "⟩] ∧
    List.Forall₂
      (fun (run : RunInfo) (rec : ProcessedRun) =>
        rec.original_text = run.original_text ∧
        rec.run_object = run.run_object ∧
        ((∃ item ∈ [(⟨str "Hei ", str "Hello "⟩ : CacheItem)],
            item.original_text = run.original_text) →
          rec.from_cache = true ∧ rec.llm_id = none ∧
          ∃ item ∈ [(⟨str "Hei ", str "Hello "⟩ : CacheItem)],
            item.original_text = run.original_text ∧
            rec.final_translation = some item.translation) ∧
        ((¬ ∃ item ∈ [(⟨str "Hei ", str "Hello "⟩ : CacheItem)],
            item.original_text = run.original_text) →
          rec.from_cache = false ∧ rec.final_translation = none ∧
          ∃ q ∈ (prepare_slide_for_translation
              [⟨str "Hei ", 0⟩, ⟨str "maailma", 1⟩] (str "h")
              [(str "h", [⟨str "Hei ", str "Hello "⟩])] 0 EOL_MARKER
              1).texts_for_llm,
            rec.llm_id = some q.id ∧
            q.original_text_for_cache = run.original_text ∧
            q.text_to_send = run.original_text ++ EOL_MARKER ∧
            q.run_object = run.run_object ∧ q.page_hash = str "h"))
      [⟨str "Hei ", 0⟩, ⟨str "maailma", 1⟩]
      (prepare_slide_for_translation [⟨str "Hei ", 0⟩, ⟨str "maailma", 1⟩]
        (str "h") [(str "h", [⟨str "Hei ", str "Hello "⟩])] 0 EOL_MARKER
        1).processed_runs_for_slide :=
  ⟨by decide,
   prepare_partial_hit_safety [⟨str "Hei ", 0⟩, ⟨str "maailma", 1⟩]
     (str "h") [(str "h", [⟨str "Hei ", str "Hello "⟩])] 0 EOL_MARKER 1
     [⟨str "Hei ", str "Hello "⟩] (by decide)⟩

/-! ## Claim C9: frame property of reconciliation -/

theorem forall2_self {α : Type} {R : α → α → Prop} (h : ∀ a, R a a) :
    ∀ l : List α, List.Forall₂ R l l
  | [] => List.Forall₂.nil
  | _ :: l => List.Forall₂.cons (h _) (forall2_self h l)

theorem forall2_comp {α β γ : Type} {R : α → β → Prop} {S : β → γ → Prop}
    {T : α → γ → Prop} {l1 : List α} {l2 : List β} {l3 : List γ}
    (h1 : List.Forall₂ R l1 l2) (h2 : List.Forall₂ S l2 l3)
    (hc : ∀ a b c, R a b → S b c → T a c) : List.Forall₂ T l1 l3 := by
  induction h1 generalizing l3 with
  | nil =>
    cases h2
    exact List.Forall₂.nil
  | cons hab _ ih =>
    cases h2 with
    | cons hbc htail => exact List.Forall₂.cons (hc _ _ _ hab hbc) (ih htail)

theorem updateFirstDetail_spec (tid t : Str) (ds : List ProcessedRun) :
    List.Forall₂
      (fun d d' => d'.run_object = d.run_object ∧
        d'.original_text = d.original_text ∧ d'.from_cache = d.from_cache ∧
        d'.llm_id = d.llm_id ∧ (d.llm_id ≠ some tid → d' = d))
      ds (updateFirstDetail tid t ds) := by
  induction ds with
  | nil => exact List.Forall₂.nil
  | cons d rest ih =>
    rw [updateFirstDetail]
    by_cases hd : d.llm_id = some tid
    · rw [if_pos hd]
      exact List.Forall₂.cons ⟨rfl, rfl, rfl, rfl, fun hne => absurd hd hne⟩
        (forall2_self (fun a => ⟨rfl, rfl, rfl, rfl, fun _ => rfl⟩) rest)
    · rw [if_neg hd]
      exact List.Forall₂.cons ⟨rfl, rfl, rfl, rfl, fun _ => rfl⟩ ih

theorem update_frame_aux (items : List LlmQueueItem) (eol : Str) :
    ∀ (lines : List Str) (details : List ProcessedRun)
      (pending : TranslationCache),
      List.Forall₂
        (fun d d' => d'.run_object = d.run_object ∧
          d'.original_text = d.original_text ∧
          d'.from_cache = d.from_cache ∧ d'.llm_id = d.llm_id ∧
          ((∀ tid, d.llm_id = some tid → tid ∉ matchedIds lines items) →
            d' = d))
        details
        (update_data_from_llm_response lines items details pending eol).1 := by
  intro lines
  induction lines with
  | nil =>
    intro details pending
    exact forall2_self (fun d => ⟨rfl, rfl, rfl, rfl, fun _ => rfl⟩) details
  | cons line rest ih =>
    intro details pending
    have hunfold : update_data_from_llm_response (line :: rest) items details
        pending eol =
        update_data_from_llm_response rest items
          (updateLineStep items eol (details, pending) line).1
          (updateLineStep items eol (details, pending) line).2 eol := by
      rw [update_data_from_llm_response, List.foldl_cons]
      rfl
    rw [hunfold]
    cases hp : parseResponseLine line with
    | none =>
      have hstep : updateLineStep items eol (details, pending) line =
          (details, pending) := by
        simp only [updateLineStep, hp]
      have hm : matchedIds (line :: rest) items = matchedIds rest items := by
        simp only [matchedIds, List.filterMap_cons, hp]
      rw [hstep]
      simp only [hm]
      exact ih details pending
    | some pr =>
      obtain ⟨tid0, rest0⟩ := pr
      cases hf : items.find? (fun item => item.id == tid0) with
      | none =>
        have hstep : updateLineStep items eol (details, pending) line =
            (details, pending) := by
          simp only [updateLineStep, hp, hf]
        have hm : matchedIds (line :: rest) items = matchedIds rest items := by
          simp only [matchedIds, List.filterMap_cons, hp, hf,
            Option.isSome_none, Bool.false_eq_true, if_false]
        rw [hstep]
        simp only [hm]
        exact ih details pending
      | some item =>
        have hstep : updateLineStep items eol (details, pending) line =
            (updateFirstDetail tid0 (removesuffix rest0 eol) details,
             pendingAddTranslation pending item.page_hash
               item.original_text_for_cache (removesuffix rest0 eol)) := by
          simp only [updateLineStep, hp, hf]
        have hm : matchedIds (line :: rest) items =
            tid0 :: matchedIds rest items := by
          simp only [matchedIds, List.filterMap_cons, hp, hf,
            Option.isSome_some, if_true]
        rw [hstep]
        simp only [hm]
        refine forall2_comp
          (updateFirstDetail_spec tid0 (removesuffix rest0 eol) details)
          (ih _ _) ?_
        rintro d d1 d2 ⟨f1, f2, f3, f4, himp1⟩ ⟨g1, g2, g3, g4, gimp⟩
        refine ⟨g1.trans f1, g2.trans f2, g3.trans f3, g4.trans f4,
          fun hyp => ?_⟩
        have hd1 : d1 = d := by
          refine himp1 (fun hcon => ?_)
          exact (hyp tid0 hcon) (List.mem_cons_self _ _)
        have hd2 : d2 = d1 := by
          refine gimp (fun tid htid hmem => ?_)
          rw [hd1] at htid
          exact (hyp tid htid) (List.mem_cons_of_mem _ hmem)
        exact hd2.trans hd1

/-- C9: reconciliation only rewrites the `final_translation` of records
whose `llm_id` equals an id parsed from some response line and matching a
queued item (`matchedIds`); every other record — in particular every
cache-served record (`llm_id = none`) and every queued record with no
matching response line (which therefore keeps `final_translation = none`)
— is returned exactly as it was, and every record keeps its `run_object`,
`original_text`, `from_cache` and `llm_id` fields in all cases. The loaded
`translation_cache` is not modified structurally: the source function
neither receives that map nor touches it, only the pending-updates map
(second component) is written. -/
theorem update_data_frame (lines : List Str) (items : List LlmQueueItem)
    (details : List ProcessedRun) (pending : TranslationCache) (eol : Str) :
    List.Forall₂
      (fun d d' => d'.run_object = d.run_object ∧
        d'.original_text = d.original_text ∧
        d'.from_cache = d.from_cache ∧ d'.llm_id = d.llm_id ∧
        ((∀ tid, d.llm_id = some tid → tid ∉ matchedIds lines items) →
          d' = d))
      details
      (update_data_from_llm_response lines items details pending eol).1 :=
  update_frame_aux items eol lines details pending

/-- Witness for C9: a response answering only id `"t1"` leaves the
cache-served record and the unanswered `"t2"` record untouched. -/
theorem update_data_frame_witness :
    List.Forall₂
      (fun d d' => d'.run_object = d.run_object ∧
        d'.original_text = d.original_text ∧
        d'.from_cache = d.from_cache ∧ d'.llm_id = d.llm_id ∧
        ((∀ tid, d.llm_id = some tid →
            tid ∉ matchedIds [str "t1:A<"]
              [⟨str "t1", str "a", str "a<", 0, str "h"⟩]) → d' = d))
      [⟨1, some (str "B"), true, str "b", none⟩,
       ⟨0, none, false, str "a", some (str "t1")⟩,
       ⟨2, none, false, str "c", some (str "t2")⟩]
      (update_data_from_llm_response [str "t1:A<"]
        [⟨str "t1", str "a", str "a<", 0, str "h"⟩]
        [⟨1, some (str "B"), true, str "b", none⟩,
         ⟨0, none, false, str "a", some (str "t1")⟩,
         ⟨2, none, false, str "c", some (str "t2")⟩] [] EOL_MARKER).1 :=
  update_data_frame [str "t1:A<"] [⟨str "t1", str "a", str "a<", 0, str "h"⟩]
    [⟨1, some (str "B"), true, str "b", none⟩,
     ⟨0, none, false, str "a", some (str "t1")⟩,
     ⟨2, none, false, str "c", some (str "t2")⟩] [] EOL_MARKER

/-! ## Claim C7: EOL round-trip -/

/-- C7: for every string `s` that does not contain the EOL sentinel,
removing at most one trailing sentinel occurrence from `s ++ EOL_MARKER`
yields exactly `s`; and for every `s` not ending with the sentinel, the
strip operation leaves `s` unchanged. (This is the `removesuffix(eol_marker)`
step of `update_data_from_llm_response` / `main`.) -/
theorem eol_round_trip :
    (∀ s : Str, '<' ∉ s → removesuffix (s ++ EOL_MARKER) EOL_MARKER = s) ∧
    (∀ s : Str, ¬ EOL_MARKER <:+ s → removesuffix s EOL_MARKER = s) :=
  ⟨fun s _ => removesuffix_append s EOL_MARKER (by decide),
   fun s h => removesuffix_of_not_suffix s EOL_MARKER h⟩

/-- Witness for C7 at `s = "Hei "` and `s = "abc"`. -/
theorem eol_round_trip_witness :
    ('<' ∉ str "Hei " ∧
      removesuffix (str "Hei " ++ EOL_MARKER) EOL_MARKER = str "Hei ") ∧
    (¬ EOL_MARKER <:+ str "abc" ∧
      removesuffix (str "abc") EOL_MARKER = str "abc") :=
  ⟨⟨by decide, eol_round_trip.1 (str "Hei ") (by decide)⟩,
   ⟨by decide, eol_round_trip.2 (str "abc") (by decide)⟩⟩

/-! ## Claim C10: net effect of reverse-words mode -/

/-- C10: for every non-empty run text `s`, the text written back by
`reverse-words` mode (append `EOL_MARKER`, `reverse_individual_words`,
remove one trailing `EOL_MARKER`) is exactly the word-wise reversal of
`s` — the single-space join of the space-split words of `s`, each with its
characters reversed — even when `s` itself ends with the sentinel
character. -/
theorem reverse_words_net_effect (s : Str) (_hne : s ≠ []) :
    mainReverseRunText s = wordRev s := by
  rw [mainReverseRunText, reverse_individual_words_append_eol,
    removesuffix_append _ _ (by decide)]

/-- Witness for C10 at `s = "ab cd<"` (a text ending in the sentinel
character). -/
theorem reverse_words_net_effect_witness :
    str "ab cd<" ≠ [] ∧ mainReverseRunText (str "ab cd<") = wordRev (str "ab cd<") :=
  ⟨by decide, reverse_words_net_effect (str "ab cd<") (by decide)⟩

/-! ## Claim C5: page-fingerprint determinism and separation -/

/-- C5 counterexample: two different ordered text lists whose joins (and
hence fingerprints) coincide, because the `"|"` delimiter also occurs in
run text: `["a|b"]` and `["a", "b"]` both join to `"a|b"`. This refutes
the claim that any two lists differing in an element or in count produce
different joined strings. -/
theorem generate_page_hash_collision :
    joinPipe [str "a|b"] = joinPipe [str "a", str "b"] ∧
    generate_page_hash [str "a|b"] = generate_page_hash [str "a", str "b"] ∧
    [str "a|b"] ≠ [str "a", str "b"] :=
  ⟨rfl, rfl, by decide⟩

/-- C5 (amended): `generate_page_hash` is a pure function — identical
ordered text lists always produce the same digest — and for non-empty
lists of texts that do not contain the `"|"` delimiter character, any two
distinct lists produce different joined strings (so any edit, addition,
removal, or reordering of delimiter-free run texts changes the hashed
payload). -/
theorem generate_page_hash_deterministic_and_separating :
    (∀ texts : List Str, generate_page_hash texts = generate_page_hash texts) ∧
    (∀ l1 l2 : List Str, l1 ≠ [] → l2 ≠ [] →
      (∀ t ∈ l1, '|' ∉ t) → (∀ t ∈ l2, '|' ∉ t) →
      l1 ≠ l2 → joinPipe l1 ≠ joinPipe l2) :=
  ⟨fun _ => rfl,
   fun l1 l2 h1 h2 hp1 hp2 hne => joinWith_injOn '|' l1 l2 h1 h2 hp1 hp2 hne⟩

/-- Witness for C5 (amended) at `l1 = ["Hei ", "maailma"]`,
`l2 = ["Hei maailma"]`. -/
theorem generate_page_hash_separating_witness :
    joinPipe [str "Hei ", str "maailma"] ≠ joinPipe [str "Hei maailma"] :=
  generate_page_hash_deterministic_and_separating.2
    [str "Hei ", str "maailma"] [str "Hei maailma"]
    (by decide) (by decide) (by decide) (by decide) (by decide)

/-! ## Claim C8: cache I/O never aborts the run -/

/-- C8 counterexample: `load_cache` can throw. On a cache file whose
bytes are not valid UTF-8 — a file whose "contents cannot be parsed", the
very case the claim covers — `json.load(f)`'s internal read raises
`UnicodeDecodeError`, which `except (OSError, json.JSONDecodeError)`
does not catch, so the exception propagates instead of the empty map
being returned. -/
theorem load_cache_unicode_error_throws :
    load_cache .unicodeDecodeError = .error .unicodeDecodeError ∧
    load_cache .unicodeDecodeError ≠ .ok [] := by
  exact ⟨rfl, by decide⟩

/-- C8 (amended): `load_cache` returns the empty map after a logged
warning when the file is missing, when opening or reading raises
`OSError`, or when the text fails JSON parsing (`json.JSONDecodeError`) —
on those outcomes it never throws — and a successfully parsed file is
returned as is; but a cache file whose bytes are not valid UTF-8 raises
an uncaught `UnicodeDecodeError`, so `load_cache` does throw on that one
corrupt-file case. `save_cache` is best-effort — a write failure is
logged, not raised — and the texts written back to the document by `main`
(`applyTranslations` within `mainFinishTranslate`) are identical whether
or not the cache could be persisted. -/
theorem cache_io_error_handling :
    (load_cache .fileMissing = .ok [] ∧ load_cache .osError = .ok [] ∧
      load_cache .jsonDecodeError = .ok []) ∧
    (∀ d : TranslationCache, load_cache (.parsed d) = .ok d) ∧
    load_cache .unicodeDecodeError = .error .unicodeDecodeError ∧
    (∀ c : TranslationCache, save_cache c .ok = true ∧
      save_cache c .osError = false) ∧
    (∀ (details : List ProcessedRun) (cache pending : TranslationCache),
      (mainFinishTranslate details cache pending .osError).1 =
        (mainFinishTranslate details cache pending .ok).1 ∧
      (mainFinishTranslate details cache pending .osError).2.1 =
        (mainFinishTranslate details cache pending .ok).2.1) :=
  ⟨⟨rfl, rfl, rfl⟩, fun _ => rfl, rfl, fun _ => ⟨rfl, rfl⟩,
   fun _ _ _ => ⟨rfl, rfl⟩⟩

end Pptrans
